import Mathlib

/-!
Shallow embedding of the gerald-gateway decision core
(`gerald_gateway/domain/scoring.py`, `domain/installments.py`,
`utils/date_utils.py`, `infrastructure/clients/ledger.py`).

Conventions of the embedding:
- Python `date` values are modelled as `Int` day numbers; `timedelta(days=k)`
  is addition of `k`; `(end - start).days` is subtraction.
- Python `int` is `Int`; Python floor division `//` and modulo `%` on ints
  are `Int.fdiv` / `Int.fmod` (both floor toward negative infinity, as in
  Python).
- Python `float` arithmetic in the scoring path is modelled exactly over `ℚ`;
  `round(x, 3)` (round-half-to-even to 3 decimals) is `roundTo3`.
- Raising an exception is modelled with `Except` / `Option`.
- The `income_spend_ratio` field of `RiskFactors` is spelled
  `income_spend_ratio'` here (Lean-side naming constraint); it is the same
  field.
-/

/-- Embeds `Transaction` from `domain/models.py`: a bank transaction record. -/
structure Transaction where
  transaction_id : String
  date : Int
  amount_cents : Int
  type : String
  description : String
  category : String
  merchant : String
  balance_cents : Int
  nsf : Bool
deriving DecidableEq, Repr

/-- Embeds `RiskFactors` from `domain/models.py`. -/
structure RiskFactors where
  avg_daily_balance_cents : Int
  total_income_cents : Int
  total_spend_cents : Int
  income_spend_ratio' : ℚ
  nsf_count : Nat
  transaction_count : Nat
  days_with_transactions : Nat
deriving DecidableEq, Repr

/-- Embeds `CreditDecision` from `domain/models.py`. -/
structure CreditDecision where
  approved : Bool
  credit_limit_cents : Int
  score : ℚ
  score_band : String
  risk_factors : RiskFactors
deriving DecidableEq, Repr

/-- Embeds `Installment` from `domain/models.py`. -/
structure Installment where
  due_date : Int
  amount_cents : Int
deriving DecidableEq, Repr

/-- Embeds the domain exceptions of `domain/exceptions.py` that the decision
path can raise (`InsufficientDataError`). -/
inductive DomainError where
  | insufficientData (msg : String)
deriving DecidableEq, Repr

/-- Embeds `generate_date_range` from `utils/date_utils.py`:
`days = (end - start).days + 1; [start + timedelta(days=i) for i in range(days)]`. -/
def generate_date_range (start stop : Int) : List Int :=
  (List.range (stop - start + 1).toNat).map (fun i : Nat => start + (i : Int))

/-- One insertion step of a stable insertion sort on the `date` key: the new
element goes in front of the first element whose date is not smaller.  Used to
model Python's stable `sorted(transactions, key=lambda t: t.date)` (a stable
sort is uniquely determined by the key order, so any stable sorting algorithm
is a faithful model). -/
def insertByDate (t : Transaction) : List Transaction → List Transaction
  | [] => [t]
  | u :: us => if u.date < t.date then u :: insertByDate t us else t :: u :: us

/-- Stable sort by `date`, modelling `sorted(transactions, key=lambda t: t.date)`
in `analyze_transactions`. -/
def sortByDate : List Transaction → List Transaction
  | [] => []
  | t :: ts => insertByDate t (sortByDate ts)

/-- Embeds the `balance_by_date` dict build of `analyze_transactions`:
`for txn in sorted_txns: balance_by_date[txn.date] = txn.balance_cents`.
The dict is modelled as an association list with the newest write in front. -/
def buildBalanceByDate (sorted_txns : List Transaction) : List (Int × Int) :=
  sorted_txns.foldl (fun m t => (t.date, t.balance_cents) :: m) []

/-- Dict lookup `balance_by_date[d]` (with `d in balance_by_date` as the
`isSome` test): the most recent write wins. -/
def lookupDate (m : List (Int × Int)) (d : Int) : Option Int :=
  (m.find? (fun p => decide (p.1 = d))).map (fun p => p.2)

/-- Embeds the carry-forward loop of `analyze_transactions`:
for each day, `last_known_balance` is updated when the day has an entry and the
current value is appended to `daily_balances`. -/
def carryForward (m : List (Int × Int)) : List Int → Int → List Int
  | [], _ => []
  | day :: rest, last_known =>
    let last' := match lookupDate m day with
      | some b => b
      | none => last_known
    last' :: carryForward m rest last'

/-- Embeds `analyze_transactions` from `domain/scoring.py`.  Raising
`InsufficientDataError` on an empty input is modelled as `Except.error`. -/
def analyze_transactions (transactions : List Transaction) : Except DomainError RiskFactors :=
  if transactions.isEmpty then
    Except.error (DomainError.insufficientData "No transaction history available")
  else
    let sorted_txns := sortByDate transactions
    -- `sorted_txns[0].date` / `sorted_txns[-1].date`; the list is non-empty
    -- here, so the `getD 0` defaults are never used.
    let start_date := ((sorted_txns.head?).map Transaction.date).getD 0
    let end_date := ((sorted_txns.getLast?).map Transaction.date).getD 0
    let balance_by_date := buildBalanceByDate sorted_txns
    let all_dates := generate_date_range start_date end_date
    let daily_balances := carryForward balance_by_date all_dates 0
    -- `sum(daily_balances) // len(daily_balances) if daily_balances else 0`
    let avg_daily_balance := if daily_balances.length = 0 then 0
      else Int.fdiv daily_balances.sum (daily_balances.length : Int)
    let total_income := ((transactions.filter (fun t => decide (t.type = "credit"))).map Transaction.amount_cents).sum
    let total_spend := ((transactions.filter (fun t => decide (t.type = "debit"))).map Transaction.amount_cents).sum
    -- `total_income / total_spend if total_spend > 0 else 0.0`
    let ratio : ℚ := if 0 < total_spend then (total_income : ℚ) / (total_spend : ℚ) else 0
    let nsf_count := (transactions.filter (fun t => t.nsf || decide (t.balance_cents < 0))).length
    let unique_dates := (transactions.map Transaction.date).dedup
    Except.ok
      { avg_daily_balance_cents := avg_daily_balance
        total_income_cents := total_income
        total_spend_cents := total_spend
        income_spend_ratio' := ratio
        nsf_count := nsf_count
        transaction_count := transactions.length
        days_with_transactions := unique_dates.length }

/-- Round-to-nearest integer, ties to even, on `ℚ` — the rounding mode of
Python's built-in `round`. -/
def roundHalfEvenInt (q : ℚ) : Int :=
  let f := ⌊q⌋
  let r := q - (f : ℚ)
  if r < 1/2 then f
  else if 1/2 < r then f + 1
  else if f % 2 = 0 then f else f + 1

/-- Embeds Python's `round(x, 3)`: round half to even at 3 decimal places. -/
def roundTo3 (q : ℚ) : ℚ :=
  (roundHalfEvenInt (q * 1000) : ℚ) / 1000

/-- Embeds `calculate_risk_score` from `domain/scoring.py`. -/
def calculate_risk_score (risk_factors : RiskFactors) : ℚ :=
  let balance_baseline : ℚ := 100000
  let balance_score := min ((risk_factors.avg_daily_balance_cents : ℚ) / balance_baseline) 1
  let income_score := min risk_factors.income_spend_ratio' 1
  let nsf_score : ℚ := if risk_factors.nsf_count = 0 then 1 else 0
  roundTo3 (0.4 * balance_score + 0.4 * income_score + 0.2 * nsf_score)

/-- Embeds `determine_credit_limit` from `domain/scoring.py`:
returns `(approved, credit_limit_cents, score_band)`. -/
def determine_credit_limit (score : ℚ) : Bool × Int × String :=
  if score < 0.2 then (false, 0, "high_risk")
  else if score < 0.4 then (true, 10000, "moderate_risk")
  else if score < 0.7 then (true, 40000, "acceptable_risk")
  else (true, 100000, "low_risk")

/-- Embeds `make_credit_decision` from `domain/scoring.py`. -/
def make_credit_decision (transactions : List Transaction) : Except DomainError CreditDecision :=
  match analyze_transactions transactions with
  | Except.error e => Except.error e
  | Except.ok risk_factors =>
    let score := calculate_risk_score risk_factors
    let res := determine_credit_limit score
    Except.ok ⟨res.1, res.2.1, score, res.2.2, risk_factors⟩

/-- Embeds `generate_installment_plan` from `domain/installments.py`.
`start_date` is passed explicitly (the Python default `date.today() +
timedelta(days=interval_days)` reads the clock and is outside the embedding).
Python raising `ZeroDivisionError` on `amount_cents // num_installments`
with `num_installments = 0` is modelled as `none`. -/
def generate_installment_plan (amount_cents num_installments interval_days start_date : Int) :
    Option (List Installment) :=
  if amount_cents ≤ 0 then some []
  else if num_installments = 0 then none
  else
    let base_amount := Int.fdiv amount_cents num_installments
    let remainder := Int.fmod amount_cents num_installments
    some ((List.range num_installments.toNat).map (fun i : Nat =>
      { due_date := start_date + (i : Int) * interval_days
        amount_cents := base_amount +
          (if (i : Int) = num_installments - 1 then remainder else 0) }))

/-- Terminal states of one delivery, as in the spec's DeliveryAttempt model:
`Delivered` when `send_approval_event` returns without raising,
`DeliveryExhausted` when it re-raises after the retry budget is exhausted. -/
inductive DeliveryOutcome where
  | Delivered
  | DeliveryExhausted
deriving DecidableEq, Repr

/-- Observable trace of one `send_approval_event` run: how many HTTP post
attempts were made, the backoff sleeps performed (in order, in seconds), and
the terminal outcome. -/
structure DeliveryTrace where
  attempts : Nat
  sleeps : List ℚ
  outcome : DeliveryOutcome
deriving DecidableEq, Repr

/-- Result of one HTTP post attempt, abstracting the `httpx` calls in
`LedgerClient.send_approval_event`: either a response with a status code, or a
timeout / connection error (both `httpx.RequestError`s). -/
inductive AttemptResult where
  | response (status : Nat)
  | timeout
  | connectionError
deriving DecidableEq, Repr

/-- Whether an attempt leaves the `try` block normally.  Models
`response.raise_for_status()` — `httpx` raises `HTTPStatusError` exactly when
the status is not a 2xx success code — together with the
`except (httpx.HTTPStatusError, httpx.RequestError)` clause, which catches
that error as well as timeouts and connection errors. -/
def attemptSucceeds : AttemptResult → Bool
  | AttemptResult.response status => 200 ≤ status && status < 300
  | AttemptResult.timeout => false
  | AttemptResult.connectionError => false

/-- Embeds the `while attempt < self.max_retries` retry loop of
`LedgerClient.send_approval_event` (`infrastructure/clients/ledger.py`),
parametrised by the per-attempt outcome `results i` of the i-th post.
On success it returns (Delivered); on failure it increments `attempt`,
re-raises when the budget is exhausted, and otherwise sleeps
`backoff_base * 2 ** (attempt - 1)` seconds and loops.  Falling out of the
`while` loop (possible only when `max_retries ≤ attempt` at entry) returns
`None` normally, i.e. without raising. -/
def send_loop (backoff_base : ℚ) (results : Nat → Bool) (max_retries attempt : Nat) :
    DeliveryTrace :=
  if h1 : attempt < max_retries then
    if results attempt then
      ⟨1, [], DeliveryOutcome.Delivered⟩
    else
      let attempt' := attempt + 1
      if h2 : max_retries ≤ attempt' then
        ⟨1, [], DeliveryOutcome.DeliveryExhausted⟩
      else
        let backoff := backoff_base * 2 ^ (attempt' - 1)
        let rest := send_loop backoff_base results max_retries attempt'
        ⟨rest.attempts + 1, backoff :: rest.sleeps, rest.outcome⟩
  else
    ⟨0, [], DeliveryOutcome.Delivered⟩
termination_by max_retries - attempt
decreasing_by omega

/-- Embeds `LedgerClient.send_approval_event`: the retry loop started at
`attempt = 0`. -/
def send_approval_event (max_retries : Nat) (backoff_base : ℚ) (results : Nat → Bool) :
    DeliveryTrace :=
  send_loop backoff_base results max_retries 0

/-- The per-day balance the specification describes: the post-transaction
balance of the last transaction (in sorted order) dated on or before `d` —
i.e. the balance of the last transaction on the latest active date ≤ `d`,
carried forward — and 0 when no transaction dated ≤ `d` exists. -/
def lastBalanceThrough (sorted_txns : List Transaction) (d : Int) : Int :=
  (((sorted_txns.filter (fun t => decide (t.date ≤ d))).getLast?).map
    Transaction.balance_cents).getD 0

/-- The `start_date = sorted_txns[0].date` of `analyze_transactions`. -/
def minTxnDate (transactions : List Transaction) : Int :=
  (((sortByDate transactions).head?).map Transaction.date).getD 0

/-- The `end_date = sorted_txns[-1].date` of `analyze_transactions`. -/
def maxTxnDate (transactions : List Transaction) : Int :=
  (((sortByDate transactions).getLast?).map Transaction.date).getD 0

/-- Concrete two-transaction history (dates 0 and 2, so day 1 has no
transactions) used to instantiate hypotheses of the theorems. -/
def demoTxns : List Transaction :=
  [⟨"a", 0, 100, "credit", "", "", "", 100000, false⟩,
   ⟨"b", 2, 50, "debit", "", "", "", 80000, false⟩]

lemma sum_map_range_const (g : Nat → Int) (c : Int) :
    ∀ n : Nat, (∀ i, i < n → g i = c) → ((List.range n).map g).sum = (n : Int) * c := by
  intro n
  induction n with
  | zero => simp
  | succ k ih =>
    intro hg
    rw [List.range_succ, List.map_append, List.sum_append,
      ih (fun i hi => hg i (by omega))]
    simp only [List.map_cons, List.map_nil, List.sum_cons, List.sum_nil]
    rw [hg k (by omega)]
    push_cast
    ring

/-- C3: for amount ≤ 0 the plan is empty; for amount > 0 and count ≥ 1 it has
exactly count installments, the first count−1 of amount ⌊amount/count⌋, the
last of ⌊amount/count⌋ + amount mod count, the amounts sum to amount, and the
i-th due date is start + i·interval, so with a positive interval the due dates
strictly increase by interval. -/
theorem C3_generate_installment_plan (amount count interval start : Int) :
    (amount ≤ 0 → generate_installment_plan amount count interval start = some []) ∧
    (0 < amount → 1 ≤ count →
      ∃ L, generate_installment_plan amount count interval start = some L ∧
        (L.length : Int) = count ∧
        (∀ i : Nat, ∀ hi : i < L.length,
          (L.get ⟨i, hi⟩).amount_cents =
            Int.fdiv amount count +
              (if (i : Int) = count - 1 then Int.fmod amount count else 0) ∧
          (L.get ⟨i, hi⟩).due_date = start + (i : Int) * interval) ∧
        (L.map Installment.amount_cents).sum = amount ∧
        (∀ i : Nat, ∀ hi : i + 1 < L.length,
          (L.get ⟨i + 1, hi⟩).due_date =
            (L.get ⟨i, Nat.lt_of_succ_lt hi⟩).due_date + interval ∧
          (1 ≤ interval →
            (L.get ⟨i, Nat.lt_of_succ_lt hi⟩).due_date < (L.get ⟨i + 1, hi⟩).due_date))) := by
  constructor
  · intro h
    simp only [generate_installment_plan, if_pos h]
  · intro h0 h1
    have hn : (count.toNat : Int) = count := Int.toNat_of_nonneg (by omega)
    refine ⟨(List.range count.toNat).map (fun i : Nat =>
      ({ due_date := start + (i : Int) * interval,
         amount_cents := Int.fdiv amount count +
           (if (i : Int) = count - 1 then Int.fmod amount count else 0) } : Installment)),
      ?_, ?_, ?_, ?_, ?_⟩
    · simp only [generate_installment_plan, if_neg (by omega : ¬ amount ≤ 0),
        if_neg (by omega : ¬ count = 0)]
    · simp only [List.length_map, List.length_range]
      exact hn
    · intro i hi
      simp only [List.length_map, List.length_range] at hi
      simp only [List.get_eq_getElem, List.getElem_map, List.getElem_range]
      constructor <;> trivial
    · rw [List.map_map]
      have hlen : count.toNat = (count.toNat - 1) + 1 := by omega
      rw [hlen, List.range_succ, List.map_append, List.sum_append]
      have h2 :
          ((List.range (count.toNat - 1)).map
            ((fun inst => inst.amount_cents) ∘ (fun i : Nat =>
              ({ due_date := start + (i : Int) * interval,
                 amount_cents := Int.fdiv amount count +
                   (if (i : Int) = count - 1 then Int.fmod amount count else 0) } : Installment)))).sum
            = ((count.toNat - 1 : Nat) : Int) * Int.fdiv amount count := by
        apply sum_map_range_const
        intro i hi
        simp only [Function.comp]
        rw [if_neg (by omega : ¬ (i : Int) = count - 1)]
        ring
      rw [h2]
      simp only [List.map_cons, List.map_nil, List.sum_cons, List.sum_nil, Function.comp]
      rw [if_pos (by omega : ((count.toNat - 1 : Nat) : Int) = count - 1)]
      have hdm := Int.fdiv_add_fmod amount count
      have hc1 : ((count.toNat - 1 : Nat) : Int) = count - 1 := by omega
      rw [hc1]
      linarith [hdm]
    · intro i hi
      simp only [List.length_map, List.length_range] at hi
      simp only [List.get_eq_getElem, List.getElem_map, List.getElem_range]
      constructor
      · push_cast
        ring
      · intro hint
        have : ((i : Int) + 1) * interval = (i : Int) * interval + interval := by ring
        push_cast
        nlinarith

theorem C3_generate_installment_plan_witness :
    (0 : Int) < 40003 ∧ (1 : Int) ≤ 4 ∧
    ∃ L, generate_installment_plan 40003 4 14 0 = some L ∧
      (L.map Installment.amount_cents).sum = 40003 := by
  refine ⟨by norm_num, by norm_num, ?_⟩
  obtain ⟨L, h1, _, _, h4, _⟩ :=
    (C3_generate_installment_plan 40003 4 14 0).2 (by norm_num) (by norm_num)
  exact ⟨L, h1, h4⟩

/-- C10: with a positive amount and num_installments = 0 the unguarded
floor division raises ZeroDivisionError (modelled as `none`); any non-zero
num_installments returns a plan, and a non-positive amount returns the empty
plan before the division is reached. -/
theorem C10_zero_installments_division_by_zero (amount interval start : Int) :
    (0 < amount → generate_installment_plan amount 0 interval start = none) ∧
    (amount ≤ 0 → generate_installment_plan amount 0 interval start = some []) ∧
    (∀ count : Int, ¬ count = 0 →
      (generate_installment_plan amount count interval start).isSome = true) := by
  refine ⟨?_, ?_, ?_⟩
  · intro h
    simp only [generate_installment_plan, if_neg (by omega : ¬ amount ≤ 0)]
    simp
  · intro h
    simp only [generate_installment_plan, if_pos h]
  · intro count hc
    by_cases ha : amount ≤ 0
    · simp [generate_installment_plan, ha]
    · simp [generate_installment_plan, ha, hc]

theorem C10_zero_installments_division_by_zero_witness :
    (0 : Int) < 1 ∧ generate_installment_plan 1 0 14 0 = none := by
  exact ⟨by norm_num, (C10_zero_installments_division_by_zero 1 14 0).1 (by norm_num)⟩

/-- C2: the credit-limit policy is a total deterministic function of the score
with left-closed/right-open bands, and takes the claimed values at
0.199, 0.2, 0.399, 0.4, 0.699 and 0.7. -/
theorem C2_determine_credit_limit_bands (s : ℚ) :
    (0 ≤ s → s < 0.2 → determine_credit_limit s = (false, 0, "high_risk")) ∧
    (0.2 ≤ s → s < 0.4 → determine_credit_limit s = (true, 10000, "moderate_risk")) ∧
    (0.4 ≤ s → s < 0.7 → determine_credit_limit s = (true, 40000, "acceptable_risk")) ∧
    (0.7 ≤ s → s ≤ 1 → determine_credit_limit s = (true, 100000, "low_risk")) ∧
    determine_credit_limit 0.199 = (false, 0, "high_risk") ∧
    determine_credit_limit 0.2 = (true, 10000, "moderate_risk") ∧
    determine_credit_limit 0.399 = (true, 10000, "moderate_risk") ∧
    determine_credit_limit 0.4 = (true, 40000, "acceptable_risk") ∧
    determine_credit_limit 0.699 = (true, 40000, "acceptable_risk") ∧
    determine_credit_limit 0.7 = (true, 100000, "low_risk") := by
  refine ⟨?_, ?_, ?_, ?_, ?_, ?_, ?_, ?_, ?_, ?_⟩
  · intro h0 h1
    simp only [determine_credit_limit]
    rw [if_pos h1]
  · intro h0 h1
    simp only [determine_credit_limit]
    rw [if_neg (by linarith), if_pos h1]
  · intro h0 h1
    simp only [determine_credit_limit]
    rw [if_neg (by linarith), if_neg (by linarith), if_pos h1]
  · intro h0 h1
    simp only [determine_credit_limit]
    rw [if_neg (by linarith), if_neg (by linarith), if_neg (by linarith)]
  all_goals norm_num [determine_credit_limit]

theorem C2_determine_credit_limit_bands_witness :
    (0 : ℚ) ≤ 0.1 ∧ (0.1 : ℚ) < 0.2 ∧
    determine_credit_limit 0.1 = (false, 0, "high_risk") := by
  exact ⟨by norm_num, by norm_num,
    (C2_determine_credit_limit_bands 0.1).1 (by norm_num) (by norm_num)⟩

/-- C1: the score is the claimed weighted sum with round-half-to-even at 3
decimals and the claimed example evaluates to 1.0 (first conjunct), but the
balance and income components are NOT additionally floored at 0: with an
average daily balance of -100000 cents the code returns -0.4, where the claim
(and the function's own docstring range "0.0 to 1.0") require 0.0 (second
conjunct).  This records the code bug. -/
theorem C1_risk_score_components_not_floored :
    calculate_risk_score ⟨150000, 900000, 600000, 3/2, 0, 50, 30⟩ = 1 ∧
    calculate_risk_score ⟨-100000, 0, 0, 0, 1, 1, 1⟩ = -(2/5) := by
  constructor <;> norm_num [calculate_risk_score, roundTo3, roundHalfEvenInt, min_def]

/-- C6: a decision produced from a non-empty transaction list can carry a score
outside [0, 1]: a single always-overdrawn account (balance -100000 cents)
yields score -0.4.  This records the code bug (the docstring of
`calculate_risk_score` promises the range 0.0 to 1.0). -/
theorem C6_decision_score_not_in_unit_interval :
    ∃ d, make_credit_decision [⟨"t1", 0, 0, "debit", "", "", "", -100000, false⟩] = Except.ok d ∧
      d.score = -(2/5) ∧ d.score < 0 := by
  refine ⟨⟨false, 0, -(2/5), "high_risk", ⟨-100000, 0, 0, 0, 1, 1, 1⟩⟩, ?_, rfl, by norm_num⟩
  have ha : analyze_transactions [⟨"t1", 0, 0, "debit", "", "", "", -100000, false⟩] =
      Except.ok ⟨-100000, 0, 0, 0, 1, 1, 1⟩ := by rfl
  simp only [make_credit_decision, ha]
  norm_num [calculate_risk_score, roundTo3, roundHalfEvenInt, min_def, determine_credit_limit]

lemma send_loop_all_fail (backoff_base : ℚ) (results : Nat → Bool) (max_retries : Nat) :
    ∀ (n a : Nat), max_retries - a = n → a < max_retries →
      (∀ i, a ≤ i → i < max_retries → results i = false) →
      send_loop backoff_base results max_retries a =
        ⟨max_retries - a,
          (List.range (max_retries - 1 - a)).map (fun j => backoff_base * 2 ^ (a + j)),
          DeliveryOutcome.DeliveryExhausted⟩ := by
  intro n
  induction n with
  | zero => intro a h ha _; omega
  | succ k ih =>
    intro a hk ha hf
    rw [send_loop, dif_pos ha, hf a le_rfl ha]
    simp only [Bool.false_eq_true, if_false]
    by_cases hend : max_retries ≤ a + 1
    · rw [dif_pos hend]
      have h1 : max_retries - a = 1 := by omega
      have h2 : max_retries - 1 - a = 0 := by omega
      rw [h1, h2]
      simp
    · rw [dif_neg hend]
      rw [ih (a + 1) (by omega) (by omega) (fun i h1 h2 => hf i (by omega) h2)]
      have h1 : max_retries - (a + 1) + 1 = max_retries - a := by omega
      have h2 : max_retries - 1 - a = (max_retries - 1 - (a + 1)) + 1 := by omega
      refine congrArg₂ (fun x y => DeliveryTrace.mk x y DeliveryOutcome.DeliveryExhausted) h1 ?_
      rw [h2, List.range_succ_eq_map, List.map_cons, List.map_map]
      simp only [Nat.add_sub_cancel, Nat.add_zero]
      refine congrArg₂ (fun x y => List.cons x y) rfl ?_
      apply List.map_congr_left
      intro j _
      simp only [Function.comp, pow_add, pow_succ]
      ring

lemma send_loop_first_success (backoff_base : ℚ) (results : Nat → Bool) (max_retries : Nat) :
    ∀ (n a k : Nat), max_retries - a = n → a ≤ k → k < max_retries → results k = true →
      (∀ i, a ≤ i → i < k → results i = false) →
      send_loop backoff_base results max_retries a =
        ⟨k + 1 - a, (List.range (k - a)).map (fun j => backoff_base * 2 ^ (a + j)),
          DeliveryOutcome.Delivered⟩ := by
  intro n
  induction n with
  | zero => intro a k h hak hk _ _; omega
  | succ m ih =>
    intro a k hm hak hk hres hf
    rw [send_loop, dif_pos (by omega : a < max_retries)]
    by_cases hka : k = a
    · rw [hka] at hres
      rw [hres]
      simp only [if_true]
      have h1 : k + 1 - a = 1 := by omega
      have h2 : k - a = 0 := by omega
      rw [h1, h2]
      simp
    · have hlt : a < k := by omega
      rw [hf a le_rfl hlt]
      simp only [Bool.false_eq_true, if_false]
      rw [dif_neg (by omega : ¬ max_retries ≤ a + 1)]
      rw [ih (a + 1) k (by omega) (by omega) hk hres (fun i h1 h2 => hf i (by omega) h2)]
      have h1 : k + 1 - (a + 1) + 1 = k + 1 - a := by omega
      have h2 : k - a = (k - (a + 1)) + 1 := by omega
      refine congrArg₂ (fun x y => DeliveryTrace.mk x y DeliveryOutcome.Delivered) h1 ?_
      rw [h2, List.range_succ_eq_map, List.map_cons, List.map_map]
      simp only [Nat.add_sub_cancel, Nat.add_zero]
      refine congrArg₂ (fun x y => List.cons x y) rfl ?_
      apply List.map_congr_left
      intro j _
      simp only [Function.comp, pow_add, pow_succ]
      ring

/-- C5: if the first successful attempt is the k-th (1-based, k ≤ max_retries),
the loop makes exactly k post attempts and k−1 backoff sleeps of
base·2^0, …, base·2^(k−2) seconds and terminates Delivered; if every attempt
fails it makes exactly max_retries attempts, sleeps base·2^(attempt−1) after
each failed attempt except the last, and terminates DeliveryExhausted. -/
theorem C5_delivery_retry_schedule (max_retries : Nat) (backoff_base : ℚ) (results : Nat → Bool) :
    (∀ k : Nat, 1 ≤ k → k ≤ max_retries → results (k - 1) = true →
      (∀ i, i < k - 1 → results i = false) →
      send_approval_event max_retries backoff_base results =
        ⟨k, (List.range (k - 1)).map (fun j => backoff_base * 2 ^ j),
          DeliveryOutcome.Delivered⟩) ∧
    (1 ≤ max_retries → (∀ i, i < max_retries → results i = false) →
      send_approval_event max_retries backoff_base results =
        ⟨max_retries, (List.range (max_retries - 1)).map (fun j => backoff_base * 2 ^ j),
          DeliveryOutcome.DeliveryExhausted⟩) := by
  constructor
  · intro k hk1 hk2 hres hf
    rw [send_approval_event,
      send_loop_first_success backoff_base results max_retries max_retries 0 (k - 1) rfl
        (by omega) (by omega) hres (fun i h1 h2 => hf i h2)]
    have h1 : k - 1 + 1 - 0 = k := by omega
    have h2 : k - 1 - 0 = k - 1 := by omega
    rw [h1, h2]
    refine congrArg₂ (fun x y => DeliveryTrace.mk k y x) rfl ?_
    apply List.map_congr_left
    intro j _
    rw [Nat.zero_add]
  · intro h1 hf
    rw [send_approval_event,
      send_loop_all_fail backoff_base results max_retries max_retries 0 rfl (by omega)
        (fun i _ h2 => hf i h2)]
    have h2 : max_retries - 0 = max_retries := by omega
    have h3 : max_retries - 1 - 0 = max_retries - 1 := by omega
    rw [h2, h3]
    refine congrArg₂ (fun x y => DeliveryTrace.mk max_retries y x) rfl ?_
    apply List.map_congr_left
    intro j _
    rw [Nat.zero_add]

theorem C5_delivery_retry_schedule_witness :
    send_approval_event 5 1 (fun _ => false) =
      ⟨5, [1, 2, 4, 8], DeliveryOutcome.DeliveryExhausted⟩ ∧
    send_approval_event 5 1 (fun i => decide (i = 2)) =
      ⟨3, [1, 2], DeliveryOutcome.Delivered⟩ := by
  constructor
  · have h := (C5_delivery_retry_schedule 5 1 (fun _ => false)).2 (by norm_num)
      (fun i _ => rfl)
    rw [h]
    norm_num [List.range_succ]
  · have h := (C5_delivery_retry_schedule 5 1 (fun i => decide (i = 2))).1 3 (by norm_num)
      (by norm_num) (by norm_num) (by decide)
    rw [h]
    norm_num [List.range_succ]

/-- C8: an attempt terminates the loop as Delivered exactly when the endpoint
answers with a 2xx status; non-2xx responses, timeouts and connection errors
are retryable failures, so the loop delivers iff some attempt within the
budget gets a 2xx after only failed attempts. -/
theorem C8_delivery_success_classification (outcomes : Nat → AttemptResult)
    (max_retries : Nat) (backoff_base : ℚ) :
    (∀ s : Nat, attemptSucceeds (AttemptResult.response s) = true ↔ 200 ≤ s ∧ s ≤ 299) ∧
    attemptSucceeds AttemptResult.timeout = false ∧
    attemptSucceeds AttemptResult.connectionError = false ∧
    (0 < max_retries →
      ((send_approval_event max_retries backoff_base
          (fun i => attemptSucceeds (outcomes i))).outcome = DeliveryOutcome.Delivered ↔
        ∃ k, k < max_retries ∧ attemptSucceeds (outcomes k) = true ∧
          ∀ j, j < k → attemptSucceeds (outcomes j) = false)) := by
  refine ⟨?_, rfl, rfl, ?_⟩
  · intro s
    simp only [attemptSucceeds, Bool.and_eq_true, decide_eq_true_eq]
    omega
  · intro hmr
    constructor
    · intro hdel
      by_contra hne
      have hall : ∀ i, i < max_retries → attemptSucceeds (outcomes i) = false := by
        intro i hi
        by_contra hne2
        have hi2 : attemptSucceeds (outcomes i) = true := by
          cases h : attemptSucceeds (outcomes i)
          · exact absurd h hne2
          · rfl
        have hex : ∃ j, attemptSucceeds (outcomes j) = true := ⟨i, hi2⟩
        classical
        have hk : attemptSucceeds (outcomes (Nat.find hex)) = true := Nat.find_spec hex
        have hkmin : ∀ j, j < Nat.find hex → attemptSucceeds (outcomes j) = false := by
          intro j hj
          have hj2 := Nat.find_min hex hj
          cases h : attemptSucceeds (outcomes j)
          · rfl
          · exact absurd h hj2
        have hkle : Nat.find hex ≤ i := Nat.find_min' hex hi2
        exact hne ⟨Nat.find hex, by omega, hk, hkmin⟩
      rw [send_approval_event, send_loop_all_fail backoff_base _ max_retries max_retries 0 rfl
        (by omega) (fun i _ h2 => hall i h2)] at hdel
      simp at hdel
    · rintro ⟨k, hk, hks, hkmin⟩
      rw [send_approval_event, send_loop_first_success backoff_base _ max_retries max_retries 0 k
        rfl (by omega) hk hks (fun i _ h2 => hkmin i h2)]

theorem C8_delivery_success_classification_witness :
    (0 : Nat) < 1 ∧
    ((send_approval_event 1 1
        (fun i => attemptSucceeds ((fun _ => AttemptResult.response 200) i))).outcome =
          DeliveryOutcome.Delivered ↔
      ∃ k, k < 1 ∧ attemptSucceeds ((fun _ => AttemptResult.response 200) k) = true ∧
        ∀ j, j < k → attemptSucceeds ((fun _ => AttemptResult.response 200) j) = false) :=
  ⟨by norm_num,
    (C8_delivery_success_classification (fun _ => AttemptResult.response 200) 1 1).2.2.2
      (by norm_num)⟩

lemma roundHalfEvenInt_lower (q : ℚ) : ⌊q⌋ ≤ roundHalfEvenInt q := by
  simp only [roundHalfEvenInt]
  split_ifs <;> omega

lemma roundHalfEvenInt_upper (q : ℚ) : roundHalfEvenInt q ≤ ⌊q⌋ + 1 := by
  simp only [roundHalfEvenInt]
  split_ifs <;> omega

lemma roundHalfEvenInt_mono {x y : ℚ} (h : x ≤ y) : roundHalfEvenInt x ≤ roundHalfEvenInt y := by
  have hf : ⌊x⌋ ≤ ⌊y⌋ := Int.floor_le_floor h
  rcases lt_or_eq_of_le hf with hlt | heq
  · calc roundHalfEvenInt x ≤ ⌊x⌋ + 1 := roundHalfEvenInt_upper x
      _ ≤ ⌊y⌋ := by omega
      _ ≤ roundHalfEvenInt y := roundHalfEvenInt_lower y
  · simp only [roundHalfEvenInt, ← heq]
    have hx0 : (⌊x⌋ : ℚ) ≤ x := Int.floor_le x
    have hxy : x - (⌊x⌋ : ℚ) ≤ y - (⌊x⌋ : ℚ) := by linarith
    split_ifs <;> first | omega | linarith

lemma roundTo3_mono {x y : ℚ} (h : x ≤ y) : roundTo3 x ≤ roundTo3 y := by
  simp only [roundTo3]
  have h1 : roundHalfEvenInt (x * 1000) ≤ roundHalfEvenInt (y * 1000) :=
    roundHalfEvenInt_mono (by linarith)
  have h2 : ((roundHalfEvenInt (x * 1000) : ℚ)) ≤ ((roundHalfEvenInt (y * 1000) : ℚ)) := by
    exact_mod_cast h1
  linarith

/-- C9: the risk score is monotonically non-decreasing in the average daily
balance and in the income/spend ratio, all other factors held fixed. -/
theorem C9_risk_score_monotone (rf : RiskFactors) :
    (∀ b b' : Int, b ≤ b' →
      calculate_risk_score { rf with avg_daily_balance_cents := b } ≤
        calculate_risk_score { rf with avg_daily_balance_cents := b' }) ∧
    (∀ r r' : ℚ, r ≤ r' →
      calculate_risk_score { rf with income_spend_ratio' := r } ≤
        calculate_risk_score { rf with income_spend_ratio' := r' }) := by
  constructor
  · intro b b' hb
    simp only [calculate_risk_score]
    apply roundTo3_mono
    have h0 : ((b : ℚ)) ≤ (b' : ℚ) := by exact_mod_cast hb
    have h1 : ((b : ℚ)) / 100000 ≤ ((b' : ℚ)) / 100000 := by linarith
    have h2 : min ((b : ℚ) / 100000) 1 ≤ min ((b' : ℚ) / 100000) 1 := min_le_min h1 le_rfl
    linarith
  · intro r r' hr
    simp only [calculate_risk_score]
    apply roundTo3_mono
    have h2 : min r 1 ≤ min r' 1 := min_le_min hr le_rfl
    linarith

theorem C9_risk_score_monotone_witness :
    (0 : Int) ≤ 1 ∧
    calculate_risk_score ⟨0, 0, 0, 0, 0, 0, 0⟩ ≤ calculate_risk_score ⟨1, 0, 0, 0, 0, 0, 0⟩ :=
  ⟨by norm_num, (C9_risk_score_monotone ⟨0, 0, 0, 0, 0, 0, 0⟩).1 0 1 (by norm_num)⟩

/-- C7: analyze_transactions fails with InsufficientData exactly on the empty
input, succeeds on every non-empty input, and make_credit_decision propagates
the analyzer's error unchanged. -/
theorem C7_insufficient_data_iff_empty (transactions : List Transaction) :
    (analyze_transactions transactions =
        Except.error (DomainError.insufficientData "No transaction history available") ↔
      transactions = []) ∧
    ((analyze_transactions transactions).isOk = true ↔ transactions ≠ []) ∧
    (∀ e, make_credit_decision transactions = Except.error e ↔
      analyze_transactions transactions = Except.error e) := by
  refine ⟨?_, ?_, ?_⟩
  · cases transactions with
    | nil => simp [analyze_transactions]
    | cons t ts => simp [analyze_transactions]
  · cases transactions with
    | nil => simp [analyze_transactions, Except.isOk, Except.toBool]
    | cons t ts => simp [analyze_transactions, Except.isOk, Except.toBool]
  · intro e
    cases h : analyze_transactions transactions with
    | error e' => simp [make_credit_decision, h]
    | ok rf => simp [make_credit_decision, h]

lemma insertByDate_perm (t : Transaction) (l : List Transaction) :
    (insertByDate t l).Perm (t :: l) := by
  induction l with
  | nil => exact List.Perm.refl _
  | cons u us ih =>
    by_cases h : u.date < t.date
    · rw [insertByDate, if_pos h]
      exact (ih.cons u).trans (List.Perm.swap t u us)
    · rw [insertByDate, if_neg h]

lemma sortByDate_perm (l : List Transaction) : (sortByDate l).Perm l := by
  induction l with
  | nil => exact List.Perm.refl _
  | cons t ts ih => exact (insertByDate_perm t (sortByDate ts)).trans (ih.cons t)

lemma mem_insertByDate {x t : Transaction} {l : List Transaction} :
    x ∈ insertByDate t l ↔ x = t ∨ x ∈ l := by
  rw [(insertByDate_perm t l).mem_iff, List.mem_cons]

lemma insertByDate_pairwise {t : Transaction} {l : List Transaction}
    (h : l.Pairwise (fun a b => a.date ≤ b.date)) :
    (insertByDate t l).Pairwise (fun a b => a.date ≤ b.date) := by
  induction l with
  | nil => simp [insertByDate]
  | cons u us ih =>
    rw [List.pairwise_cons] at h
    obtain ⟨hu, hus⟩ := h
    by_cases hd : u.date < t.date
    · rw [insertByDate, if_pos hd, List.pairwise_cons]
      refine ⟨?_, ih hus⟩
      intro x hx
      rcases mem_insertByDate.mp hx with rfl | hx2
      · exact le_of_lt hd
      · exact hu x hx2
    · rw [insertByDate, if_neg hd, List.pairwise_cons]
      refine ⟨?_, List.pairwise_cons.mpr ⟨hu, hus⟩⟩
      intro x hx
      rcases List.mem_cons.mp hx with rfl | hx2
      · omega
      · exact le_trans (by omega) (hu x hx2)

lemma sortByDate_pairwise (l : List Transaction) :
    (sortByDate l).Pairwise (fun a b => a.date ≤ b.date) := by
  induction l with
  | nil => simp [sortByDate]
  | cons t ts ih => exact insertByDate_pairwise ih

lemma pairwise_head_le {t : Transaction} {l : List Transaction}
    (h : (t :: l).Pairwise (fun a b => a.date ≤ b.date)) :
    ∀ x ∈ t :: l, t.date ≤ x.date := by
  intro x hx
  rcases List.mem_cons.mp hx with rfl | hx2
  · exact le_refl _
  · exact (List.pairwise_cons.mp h).1 x hx2

lemma pairwise_le_getLast {l : List Transaction}
    (h : l.Pairwise (fun a b => a.date ≤ b.date)) (hne : l ≠ []) :
    ∀ x ∈ l, x.date ≤ (l.getLast hne).date := by
  induction l with
  | nil => simp at hne
  | cons t ts ih =>
    intro x hx
    cases ts with
    | nil =>
      rcases List.mem_cons.mp hx with rfl | hx2
      · exact le_refl _
      · simp at hx2
    | cons u us =>
      have htsne : (u :: us) ≠ [] := by simp
      rw [List.getLast_cons htsne]
      rw [List.pairwise_cons] at h
      obtain ⟨hu, hts2⟩ := h
      rcases List.mem_cons.mp hx with rfl | hx2
      · exact hu _ (List.getLast_mem htsne)
      · exact ih hts2 htsne x hx2

lemma generate_date_range_eq_nil {s e : Int} (h : e < s) : generate_date_range s e = [] := by
  have h0 : (e - s + 1).toNat = 0 := by omega
  simp [generate_date_range, h0]

lemma generate_date_range_cons {s e : Int} (h : s ≤ e) :
    generate_date_range s e = s :: generate_date_range (s + 1) e := by
  have h1 : (e - s + 1).toNat = (e - (s + 1) + 1).toNat + 1 := by omega
  rw [generate_date_range, h1, List.range_succ_eq_map]
  rw [List.map_cons, List.map_map]
  congr 1
  · simp
  · rw [generate_date_range]
    apply List.map_congr_left
    intro i _
    simp only [Function.comp]
    push_cast
    ring

lemma mem_generate_date_range {s e d : Int} :
    d ∈ generate_date_range s e ↔ s ≤ d ∧ d ≤ e := by
  simp only [generate_date_range, List.mem_map, List.mem_range]
  constructor
  · rintro ⟨i, hi, rfl⟩
    omega
  · rintro ⟨h1, h2⟩
    exact ⟨(d - s).toNat, by omega, by omega⟩

lemma nodup_generate_date_range (s e : Int) : (generate_date_range s e).Nodup := by
  refine List.Nodup.map ?_ (List.nodup_range _)
  intro a b hab
  dsimp only at hab
  omega

lemma length_generate_date_range (s e : Int) :
    (generate_date_range s e).length = (e - s + 1).toNat := by
  simp [generate_date_range]

lemma carryForward_length (m : List (Int × Int)) :
    ∀ (days : List Int) (last : Int), (carryForward m days last).length = days.length := by
  intro days
  induction days with
  | nil => intro last; rfl
  | cons d ds ih => intro last; simp [carryForward, ih]

lemma getLast?_cons_of_ne_nil {α : Type _} {a : α} {l : List α} (h : l ≠ []) :
    (a :: l).getLast? = l.getLast? := by
  cases l with
  | nil => exact absurd rfl h
  | cons b bs => exact List.getLast?_cons_cons

lemma buildBalanceByDate_append (l : List Transaction) (t : Transaction) :
    buildBalanceByDate (l ++ [t]) = (t.date, t.balance_cents) :: buildBalanceByDate l := by
  simp [buildBalanceByDate, List.foldl_append]

lemma lookupDate_buildBalanceByDate (l : List Transaction) (d : Int) :
    lookupDate (buildBalanceByDate l) d =
      ((l.filter (fun t => decide (t.date = d))).getLast?).map Transaction.balance_cents := by
  induction l using List.reverseRecOn with
  | nil => rfl
  | append_singleton l t ih =>
    rw [buildBalanceByDate_append]
    by_cases ht : t.date = d
    · rw [lookupDate, List.find?_cons_of_pos _ (by simpa using ht)]
      rw [List.filter_append, List.filter_cons_of_pos (by simpa using ht), List.filter_nil,
        List.getLast?_concat]
      rfl
    · rw [lookupDate, List.find?_cons_of_neg _ (by simpa using ht)]
      rw [List.filter_append, List.filter_cons_of_neg (by simpa using ht), List.filter_nil,
        List.append_nil]
      exact ih

lemma sorted_filter_le_getLast_eq {l : List Transaction}
    (hs : l.Pairwise (fun a b => a.date ≤ b.date)) (d : Int)
    (hne : (l.filter (fun t => decide (t.date = d))) ≠ []) :
    (l.filter (fun t => decide (t.date ≤ d))).getLast? =
      (l.filter (fun t => decide (t.date = d))).getLast? := by
  induction l with
  | nil => simp at hne
  | cons t ts ih =>
    rw [List.pairwise_cons] at hs
    obtain ⟨hu, hts⟩ := hs
    by_cases ht : t.date = d
    · have hle : t.date ≤ d := le_of_eq ht
      have hf1 : List.filter (fun u => decide (u.date ≤ d)) (t :: ts) =
          t :: List.filter (fun u => decide (u.date ≤ d)) ts :=
        List.filter_cons_of_pos (by simpa using hle)
      have hf2 : List.filter (fun u => decide (u.date = d)) (t :: ts) =
          t :: List.filter (fun u => decide (u.date = d)) ts :=
        List.filter_cons_of_pos (by simpa using ht)
      rw [hf1, hf2]
      by_cases hrec : (ts.filter (fun u => decide (u.date = d))) = []
      · have h2 : ts.filter (fun u => decide (u.date ≤ d)) = [] := by
          rw [List.filter_eq_nil_iff]
          intro x hx
          simp only [decide_eq_true_eq]
          intro hxle
          have hxd : x.date = d := le_antisymm hxle (ht ▸ hu x hx)
          have hmem : x ∈ ts.filter (fun u => decide (u.date = d)) :=
            List.mem_filter.mpr ⟨hx, by simpa using hxd⟩
          rw [hrec] at hmem
          simp at hmem
        rw [hrec, h2]
      · obtain ⟨x, hx⟩ := List.exists_mem_of_ne_nil _ hrec
        obtain ⟨hxts, hxd⟩ := List.mem_filter.mp hx
        simp only [decide_eq_true_eq] at hxd
        have hxle : x ∈ ts.filter (fun u => decide (u.date ≤ d)) :=
          List.mem_filter.mpr ⟨hxts, by simp [hxd]⟩
        rw [getLast?_cons_of_ne_nil (List.ne_nil_of_mem hxle),
          getLast?_cons_of_ne_nil hrec]
        exact ih hts hrec
    · have hf2 : List.filter (fun u => decide (u.date = d)) (t :: ts) =
          List.filter (fun u => decide (u.date = d)) ts :=
        List.filter_cons_of_neg (by simpa using ht)
      rw [hf2] at hne ⊢
      obtain ⟨x, hx⟩ := List.exists_mem_of_ne_nil _ hne
      obtain ⟨hxts, hxd⟩ := List.mem_filter.mp hx
      simp only [decide_eq_true_eq] at hxd
      have htle : t.date ≤ d := hxd ▸ hu x hxts
      have hf1 : List.filter (fun u => decide (u.date ≤ d)) (t :: ts) =
          t :: List.filter (fun u => decide (u.date ≤ d)) ts :=
        List.filter_cons_of_pos (by simpa using htle)
      rw [hf1]
      have hxle : x ∈ ts.filter (fun u => decide (u.date ≤ d)) :=
        List.mem_filter.mpr ⟨hxts, by simp [hxd]⟩
      rw [getLast?_cons_of_ne_nil (List.ne_nil_of_mem hxle)]
      exact ih hts hne

lemma filter_le_shift {l : List Transaction} {d : Int}
    (h : l.filter (fun t => decide (t.date = d)) = []) :
    l.filter (fun t => decide (t.date ≤ d)) = l.filter (fun t => decide (t.date ≤ d - 1)) := by
  apply List.filter_congr
  intro x hx
  have hxd : ¬ x.date = d := by
    have h2 := List.filter_eq_nil_iff.mp h x hx
    simpa using h2
  rw [decide_eq_decide]
  constructor <;> omega

lemma lastBalanceThrough_of_active {l : List Transaction}
    (hs : l.Pairwise (fun a b => a.date ≤ b.date)) {d : Int}
    (hne : (l.filter (fun t => decide (t.date = d))) ≠ []) :
    lastBalanceThrough l d =
      (((l.filter (fun t => decide (t.date = d))).getLast?).map
        Transaction.balance_cents).getD 0 := by
  rw [lastBalanceThrough, sorted_filter_le_getLast_eq hs d hne]

lemma lastBalanceThrough_of_inactive {l : List Transaction} {d : Int}
    (h : l.filter (fun t => decide (t.date = d)) = []) :
    lastBalanceThrough l d = lastBalanceThrough l (d - 1) := by
  rw [lastBalanceThrough, lastBalanceThrough, filter_le_shift h]

lemma lastBalanceThrough_of_lt {l : List Transaction} {d : Int}
    (h : ∀ t ∈ l, d < t.date) : lastBalanceThrough l d = 0 := by
  have h2 : l.filter (fun t => decide (t.date ≤ d)) = [] := by
    rw [List.filter_eq_nil_iff]
    intro x hx
    simp only [decide_eq_true_eq]
    have := h x hx
    omega
  rw [lastBalanceThrough, h2]
  rfl

lemma carryForward_eq_map_lastBalanceThrough {l : List Transaction}
    (hs : l.Pairwise (fun a b => a.date ≤ b.date)) (hi : Int) :
    ∀ (n : Nat) (d0 : Int), (hi - d0 + 1).toNat = n →
      carryForward (buildBalanceByDate l) (generate_date_range d0 hi)
          (lastBalanceThrough l (d0 - 1)) =
        (generate_date_range d0 hi).map (lastBalanceThrough l) := by
  intro n
  induction n with
  | zero =>
    intro d0 h0
    have hlt : hi < d0 := by omega
    rw [generate_date_range_eq_nil hlt]
    rfl
  | succ k ih =>
    intro d0 hk
    have hd : d0 ≤ hi := by omega
    rw [generate_date_range_cons hd, List.map_cons]
    simp only [carryForward]
    cases hl : lookupDate (buildBalanceByDate l) d0 with
    | some b =>
      have hchar := lookupDate_buildBalanceByDate l d0
      rw [hl] at hchar
      have hfne : (l.filter (fun t => decide (t.date = d0))) ≠ [] := by
        intro hnil
        rw [hnil] at hchar
        simp at hchar
      have hval : lastBalanceThrough l d0 = b := by
        rw [lastBalanceThrough_of_active hs hfne, ← hchar]
        rfl
      have hih := ih (d0 + 1) (by omega)
      rw [show d0 + 1 - 1 = d0 from by ring] at hih
      rw [hval] at hih
      rw [hih, hval]
    | none =>
      have hchar := lookupDate_buildBalanceByDate l d0
      rw [hl] at hchar
      have hnil : (l.filter (fun t => decide (t.date = d0))) = [] :=
        List.getLast?_eq_none_iff.mp (Option.map_eq_none'.mp hchar.symm)
      have hval : lastBalanceThrough l d0 = lastBalanceThrough l (d0 - 1) :=
        lastBalanceThrough_of_inactive hnil
      have hih := ih (d0 + 1) (by omega)
      rw [show d0 + 1 - 1 = d0 from by ring] at hih
      rw [hval] at hih
      rw [hih, ← hval]

/-- C4: for every non-empty transaction list, the analyzer's average daily
balance is the floored mean, over the calendar range [min date, max date]
expanded so that every day appears exactly once, of per-day balances where a
day's balance is the balance of the last transaction on that date in sorted
order, carried forward over transaction-free days (0 before any known
balance). -/
theorem C4_avg_daily_balance_algorithm (transactions : List Transaction)
    (hne : transactions ≠ []) :
    ∃ rf, analyze_transactions transactions = Except.ok rf ∧
      (∀ t ∈ transactions, minTxnDate transactions ≤ t.date ∧
        t.date ≤ maxTxnDate transactions) ∧
      (∃ t ∈ transactions, t.date = minTxnDate transactions) ∧
      (∃ t ∈ transactions, t.date = maxTxnDate transactions) ∧
      (generate_date_range (minTxnDate transactions) (maxTxnDate transactions)).Nodup ∧
      (∀ d : Int,
        d ∈ generate_date_range (minTxnDate transactions) (maxTxnDate transactions) ↔
          minTxnDate transactions ≤ d ∧ d ≤ maxTxnDate transactions) ∧
      (∀ d : Int, ((sortByDate transactions).filter (fun t => decide (t.date = d))) ≠ [] →
        lastBalanceThrough (sortByDate transactions) d =
          ((((sortByDate transactions).filter (fun t => decide (t.date = d))).getLast?).map
            Transaction.balance_cents).getD 0) ∧
      (∀ d : Int, ((sortByDate transactions).filter (fun t => decide (t.date = d))) = [] →
        lastBalanceThrough (sortByDate transactions) d =
          lastBalanceThrough (sortByDate transactions) (d - 1)) ∧
      rf.avg_daily_balance_cents =
        Int.fdiv
          (((generate_date_range (minTxnDate transactions) (maxTxnDate transactions)).map
            (lastBalanceThrough (sortByDate transactions))).sum)
          ((generate_date_range (minTxnDate transactions) (maxTxnDate transactions)).length :
            Int) := by
  have hsorted := sortByDate_pairwise transactions
  have hperm := sortByDate_perm transactions
  have hsne : sortByDate transactions ≠ [] := by
    intro h0
    apply hne
    have hlen := hperm.length_eq
    rw [h0] at hlen
    exact List.length_eq_zero.mp hlen.symm
  obtain ⟨t0, rest, hcons⟩ : ∃ t0 rest, sortByDate transactions = t0 :: rest := by
    cases h : sortByDate transactions with
    | nil => exact absurd h hsne
    | cons a l => exact ⟨a, l, rfl⟩
  have hlo : minTxnDate transactions = t0.date := by
    rw [minTxnDate, hcons]
    rfl
  have hhi : maxTxnDate transactions = ((sortByDate transactions).getLast hsne).date := by
    rw [maxTxnDate, List.getLast?_eq_getLast _ hsne]
    rfl
  have hmin : ∀ t ∈ sortByDate transactions, minTxnDate transactions ≤ t.date := by
    intro t ht
    rw [hlo]
    rw [hcons] at ht
    exact pairwise_head_le (hcons ▸ hsorted) t ht
  have hmax : ∀ t ∈ sortByDate transactions, t.date ≤ maxTxnDate transactions := by
    intro t ht
    rw [hhi]
    exact pairwise_le_getLast hsorted hsne t ht
  have hlohi : minTxnDate transactions ≤ maxTxnDate transactions := by
    have h1 : t0 ∈ sortByDate transactions := by rw [hcons]; exact List.mem_cons_self _ _
    have := hmax t0 h1
    omega
  have hif : transactions.isEmpty = false := by
    cases transactions with
    | nil => exact absurd rfl hne
    | cons a l => rfl
  have hzero : lastBalanceThrough (sortByDate transactions) (minTxnDate transactions - 1) = 0 := by
    apply lastBalanceThrough_of_lt
    intro t ht
    have := hmin t ht
    omega
  have hcarry : carryForward (buildBalanceByDate (sortByDate transactions))
      (generate_date_range (minTxnDate transactions) (maxTxnDate transactions)) 0 =
      (generate_date_range (minTxnDate transactions) (maxTxnDate transactions)).map
        (lastBalanceThrough (sortByDate transactions)) := by
    rw [← hzero]
    exact carryForward_eq_map_lastBalanceThrough hsorted (maxTxnDate transactions) _
      (minTxnDate transactions) rfl
  have hdayslen :
      (generate_date_range (minTxnDate transactions) (maxTxnDate transactions)).length =
        (maxTxnDate transactions - minTxnDate transactions + 1).toNat :=
    length_generate_date_range _ _
  simp only [analyze_transactions]
  rw [if_neg (by simp [hif])]
  refine ⟨_, rfl, ?_, ?_, ?_, nodup_generate_date_range _ _,
    fun d => mem_generate_date_range, ?_, ?_, ?_⟩
  · intro t ht
    have ht2 : t ∈ sortByDate transactions := hperm.mem_iff.mpr ht
    exact ⟨hmin t ht2, hmax t ht2⟩
  · refine ⟨t0, ?_, hlo.symm⟩
    exact hperm.mem_iff.mp (by rw [hcons]; exact List.mem_cons_self _ _)
  · refine ⟨(sortByDate transactions).getLast hsne, ?_, hhi.symm⟩
    exact hperm.mem_iff.mp (List.getLast_mem hsne)
  · intro d hd
    exact lastBalanceThrough_of_active hsorted hd
  · intro d hd
    exact lastBalanceThrough_of_inactive hd
  · dsimp only
    have e1 : (((sortByDate transactions).head?).map Transaction.date).getD 0 =
        minTxnDate transactions := rfl
    have e2 : (((sortByDate transactions).getLast?).map Transaction.date).getD 0 =
        maxTxnDate transactions := rfl
    rw [e1, e2, hcarry, List.length_map, hdayslen]
    rw [if_neg (by omega)]

theorem C4_avg_daily_balance_algorithm_witness :
    demoTxns ≠ [] ∧
    ∃ rf, analyze_transactions demoTxns = Except.ok rf ∧
      rf.avg_daily_balance_cents =
        Int.fdiv
          (((generate_date_range (minTxnDate demoTxns) (maxTxnDate demoTxns)).map
            (lastBalanceThrough (sortByDate demoTxns))).sum)
          ((generate_date_range (minTxnDate demoTxns) (maxTxnDate demoTxns)).length : Int) := by
  refine ⟨by decide, ?_⟩
  obtain ⟨rf, h1, _, _, _, _, _, _, _, h9⟩ :=
    C4_avg_daily_balance_algorithm demoTxns (by decide)
  exact ⟨rf, h1, h9⟩
